import Mathlib

/-!
Verification of the MnemonicPhrase repository core: the password-based
mnemonic encryption scheme (`src/utils/cryptoUtils.js` AES-256-CTR module and
`src/utils/cryptoUtilsGUI.js` AES-256-GCM module) and the batch
gas-distribution protocol (`scripts/tx-server.js` backend and the
`GasBatchManager` React component).

Modelling conventions:
* JavaScript byte buffers become `List Nat` with each element `< 256`.
* Library primitives that the repository only calls (PBKDF2, the AES block
  cipher keystream, WebCrypto AES-GCM, SHA-256) become explicit function
  parameters bundled in structures; the repository's own logic is translated
  concretely.
* Randomness (`randomBytes`, `getRandomValues`) is made explicit: the salt and
  IV are arguments of the Lean functions.
* Asynchronous RPC interactions of the transaction broadcaster become
  per-recipient behaviour records describing what the node answers.
-/

namespace MnemonicPhrase

/-! ## Base64 codec

`Buffer.toString('base64')` / `Buffer.from(_, 'base64')` (and `btoa`/`atob` in
the GUI module) are modelled by a concrete standard Base64 implementation over
byte lists. -/

/-- The 64-character Base64 alphabet, `A-Z a-z 0-9 + /`. -/
def b64Alphabet : List Char :=
  ['A', 'B', 'C', 'D', 'E', 'F', 'G', 'H', 'I', 'J', 'K', 'L', 'M',
   'N', 'O', 'P', 'Q', 'R', 'S', 'T', 'U', 'V', 'W', 'X', 'Y', 'Z',
   'a', 'b', 'c', 'd', 'e', 'f', 'g', 'h', 'i', 'j', 'k', 'l', 'm',
   'n', 'o', 'p', 'q', 'r', 's', 't', 'u', 'v', 'w', 'x', 'y', 'z',
   '0', '1', '2', '3', '4', '5', '6', '7', '8', '9', '+', '/']

/-- Character for a 6-bit value. -/
def b64Char (v : Nat) : Char := b64Alphabet.getD v '?'

/-- 6-bit value of a Base64 character (its index in the alphabet). -/
def b64Val (c : Char) : Nat := b64Alphabet.indexOf c

/-- Base64-encode a byte list, producing the character sequence of the
standard padded encoding. -/
def b64encode : List Nat → List Char
  | [] => []
  | [b0] => [b64Char (b0 / 4), b64Char (b0 % 4 * 16), '=', '=']
  | [b0, b1] =>
      [b64Char (b0 / 4), b64Char (b0 % 4 * 16 + b1 / 16), b64Char (b1 % 16 * 4), '=']
  | b0 :: b1 :: b2 :: rest =>
      b64Char (b0 / 4) :: b64Char (b0 % 4 * 16 + b1 / 16) ::
        b64Char (b1 % 16 * 4 + b2 / 64) :: b64Char (b2 % 64) :: b64encode rest

/-- Base64-decode a character sequence back to bytes. -/
def b64decode : List Char → List Nat
  | c0 :: c1 :: c2 :: c3 :: rest =>
      if c2 = '=' then [b64Val c0 * 4 + b64Val c1 / 16]
      else if c3 = '=' then
        [b64Val c0 * 4 + b64Val c1 / 16, b64Val c1 % 16 * 16 + b64Val c2 / 4]
      else
        (b64Val c0 * 4 + b64Val c1 / 16) :: (b64Val c1 % 16 * 16 + b64Val c2 / 4) ::
          (b64Val c2 % 4 * 64 + b64Val c3) :: b64decode rest
  | _ => []

theorem b64Val_b64Char : ∀ v < 64, b64Val (b64Char v) = v := by decide

theorem b64Char_ne_pad : ∀ v < 64, b64Char v ≠ '=' := by decide

theorem b64encode_ne_nil {bs : List Nat} (h : bs ≠ []) : b64encode bs ≠ [] := by
  match bs with
  | [] => exact absurd rfl h
  | [b0] => simp [b64encode]
  | [b0, b1] => simp [b64encode]
  | b0 :: b1 :: b2 :: rest => simp [b64encode]

theorem b64decode_b64encode (bs : List Nat) (hb : ∀ b ∈ bs, b < 256) :
    b64decode (b64encode bs) = bs := by
  induction bs using b64encode.induct with
  | case1 => simp [b64encode, b64decode]
  | case2 b0 =>
      have h0 : b0 < 256 := hb b0 (by simp)
      simp only [b64encode, b64decode]
      rw [if_pos (by trivial)]
      rw [b64Val_b64Char (b0 / 4) (by omega), b64Val_b64Char (b0 % 4 * 16) (by omega)]
      simp only [List.cons.injEq, and_true]
      omega
  | case3 b0 b1 =>
      have h0 : b0 < 256 := hb b0 (by simp)
      have h1 : b1 < 256 := hb b1 (by simp)
      simp only [b64encode, b64decode]
      rw [if_neg (b64Char_ne_pad (b1 % 16 * 4) (by omega))]
      rw [if_pos (by trivial)]
      rw [b64Val_b64Char (b0 / 4) (by omega),
        b64Val_b64Char (b0 % 4 * 16 + b1 / 16) (by omega),
        b64Val_b64Char (b1 % 16 * 4) (by omega)]
      simp only [List.cons.injEq, and_true]
      omega
  | case4 b0 b1 b2 rest ih =>
      have h0 : b0 < 256 := hb b0 (by simp)
      have h1 : b1 < 256 := hb b1 (by simp)
      have h2 : b2 < 256 := hb b2 (by simp)
      simp only [b64encode, b64decode]
      rw [if_neg (b64Char_ne_pad (b1 % 16 * 4 + b2 / 64) (by omega))]
      rw [if_neg (b64Char_ne_pad (b2 % 64) (by omega))]
      rw [b64Val_b64Char (b0 / 4) (by omega),
        b64Val_b64Char (b0 % 4 * 16 + b1 / 16) (by omega),
        b64Val_b64Char (b1 % 16 * 4 + b2 / 64) (by omega),
        b64Val_b64Char (b2 % 64) (by omega)]
      rw [ih (fun b h => hb b (by simp [h]))]
      simp only [List.cons.injEq, and_true]
      omega

/-! ## CipherEnvelope: the AES-256-CTR module (`src/utils/cryptoUtils.js`)

The module's own logic (argument checks, envelope framing, length check,
mnemonic-validity recheck) is translated concretely.  The library primitives it
calls — `pbkdf2` and the AES-256 block cipher underlying `aes-256-ctr` — are
parameters: CTR mode XORs the plaintext with the keystream determined by the
key and IV, so the block cipher appears only through its byte keystream. -/

/-- Library crypto primitives used by the CTR module: `pbkdf2(password, salt,
iterations, keyLen)` and the AES-CTR keystream byte at a given index for a
given key and IV.  Keystream bytes are bytes. -/
structure CtrPrims where
  pbkdf2 : List Nat → List Nat → Nat → Nat → List Nat
  keystream : List Nat → List Nat → Nat → Nat
  keystream_lt : ∀ key iv i, keystream key iv i < 256

/-- XOR a byte list against a keystream starting at byte index `i`
(`cipher.update`/`decipher.update` of `aes-256-ctr`). -/
def ctrXor (ks : Nat → Nat) : Nat → List Nat → List Nat
  | _, [] => []
  | i, b :: rest => (b ^^^ ks i) :: ctrXor ks (i + 1) rest

/-- Errors of the crypto modules, one constructor per distinct `throw` site. -/
inductive CryptoErr where
  | emptyInput
  | invalidMnemonic
  | badFormat
  | notValidMnemonic
  | decryptFailed
deriving DecidableEq, Repr

/-- `encryptMnemonic` of `src/utils/cryptoUtils.js` (AES-256-CTR module).
The mnemonic and password are byte lists (UTF-8 bytes of the JS strings); the
random salt and IV drawn by `randomBytes(16)` are explicit arguments.
`validM` stands for the module's `validateMnemonic` (backed by the `bip39`
library). Returns the Base64 envelope `salt ‖ iv ‖ ciphertext`. -/
def encryptMnemonic (prims : CtrPrims) (validM : List Nat → Bool)
    (mnemonic password salt iv : List Nat) : Except CryptoErr (List Char) :=
  if mnemonic = [] ∨ password = [] then .error .emptyInput
  else if validM mnemonic = false then .error .invalidMnemonic
  else
    let key := prims.pbkdf2 password salt 10000 32
    let encrypted := ctrXor (prims.keystream key iv) 0 mnemonic
    .ok (b64encode (salt ++ iv ++ encrypted))

/-- `decryptMnemonic` of `src/utils/cryptoUtils.js` (AES-256-CTR module):
Base64-decode, reject when fewer than 32 bytes, slice
`salt = data[0..16)`, `iv = data[16..32)`, `ciphertext = data[32..)`,
re-derive the key, decrypt, and fail unless the plaintext passes
`validateMnemonic`. -/
def decryptMnemonic (prims : CtrPrims) (validM : List Nat → Bool)
    (encryptedData : List Char) (password : List Nat) : Except CryptoErr (List Nat) :=
  if encryptedData = [] ∨ password = [] then .error .emptyInput
  else
    let data := b64decode encryptedData
    if data.length < 32 then .error .badFormat
    else
      let salt := data.take 16
      let iv := (data.drop 16).take 16
      let encrypted := data.drop 32
      let key := prims.pbkdf2 password salt 10000 32
      let decrypted := ctrXor (prims.keystream key iv) 0 encrypted
      if validM decrypted then .ok decrypted else .error .notValidMnemonic

/-! ## CipherEnvelope: the AES-256-GCM module (`src/utils/cryptoUtilsGUI.js`)

WebCrypto's `subtle.encrypt`/`subtle.decrypt` for AES-GCM are parameters;
decryption returns `none` exactly when the authentication tag check fails. -/

/-- Library primitives used by the GUI module: PBKDF2 key derivation and
WebCrypto AES-GCM encryption/decryption. -/
structure GcmPrims where
  pbkdf2 : List Nat → List Nat → Nat → Nat → List Nat
  gcmEncrypt : List Nat → List Nat → List Nat → List Nat
  gcmDecrypt : List Nat → List Nat → List Nat → Option (List Nat)

/-- `decryptMnemonic` of `src/utils/cryptoUtilsGUI.js` (AES-256-GCM module):
Base64-decode, reject when fewer than 28 bytes, slice `salt = data[0..16)`,
`iv = data[16..28)`, `ciphertext(+tag) = data[28..)`, derive the key, AEAD
decrypt (tag failure throws), and fail unless the plaintext passes
`validateMnemonic`. -/
def decryptMnemonicGUI (prims : GcmPrims) (validM : List Nat → Bool)
    (encryptedData : List Char) (password : List Nat) : Except CryptoErr (List Nat) :=
  if encryptedData = [] ∨ password = [] then .error .emptyInput
  else
    let data := b64decode encryptedData
    if data.length < 28 then .error .badFormat
    else
      let salt := data.take 16
      let iv := (data.drop 16).take 12
      let encrypted := data.drop 28
      let key := prims.pbkdf2 password salt 10000 32
      match prims.gcmDecrypt key iv encrypted with
      | none => .error .decryptFailed
      | some decrypted =>
          if validM decrypted then .ok decrypted else .error .notValidMnemonic

theorem ctrXor_length (ks : Nat → Nat) (i : Nat) (l : List Nat) :
    (ctrXor ks i l).length = l.length := by
  induction l generalizing i with
  | nil => rfl
  | cons b rest ih => simp [ctrXor, ih]

theorem ctrXor_ctrXor (ks : Nat → Nat) (i : Nat) (l : List Nat) :
    ctrXor ks i (ctrXor ks i l) = l := by
  induction l generalizing i with
  | nil => rfl
  | cons b rest ih =>
      simp only [ctrXor, List.cons.injEq]
      exact ⟨by rw [Nat.xor_assoc, Nat.xor_self, Nat.xor_zero], ih (i + 1)⟩

theorem ctrXor_lt (ks : Nat → Nat) (hks : ∀ i, ks i < 256) (i : Nat)
    (l : List Nat) (hl : ∀ b ∈ l, b < 256) : ∀ b ∈ ctrXor ks i l, b < 256 := by
  induction l generalizing i with
  | nil => simp [ctrXor]
  | cons b rest ih =>
      intro c hc
      simp only [ctrXor, List.mem_cons] at hc
      rcases hc with hc | hc
      · subst hc
        have h1 : b < 2 ^ 8 := hl b (by simp)
        have h2 : ks i < 2 ^ 8 := hks i
        exact Nat.xor_lt_two_pow h1 h2
      · exact ih (i + 1) (fun x hx => hl x (by simp [hx])) c hc

instance {ε α : Type} [DecidableEq ε] [DecidableEq α] :
    DecidableEq (Except ε α) := fun a b =>
  match a, b with
  | .ok a, .ok b => decidable_of_iff (a = b) (by simp)
  | .error e, .error f => decidable_of_iff (e = f) (by simp)
  | .ok _, .error _ => isFalse (by simp)
  | .error _, .ok _ => isFalse (by simp)

/-- C1: for every valid BIP39 mnemonic `m` (non-empty byte list accepted by
`validateMnemonic`) and every non-empty password `p`, decrypting the envelope
produced by `encryptMnemonic` with the same password returns `m`:
`decryptMnemonic (encryptMnemonic m p) p = m`, for any PBKDF2/AES primitives
and any fresh 16-byte salt and IV. -/
theorem c1_round_trip (prims : CtrPrims) (validM : List Nat → Bool)
    (m p salt iv : List Nat) (hm : m ≠ []) (hp : p ≠ [])
    (hvm : validM m = true) (hsalt : salt.length = 16) (hiv : iv.length = 16)
    (hmB : ∀ b ∈ m, b < 256) (hsB : ∀ b ∈ salt, b < 256)
    (hivB : ∀ b ∈ iv, b < 256) :
    ∃ env, encryptMnemonic prims validM m p salt iv = .ok env ∧
      decryptMnemonic prims validM env p = .ok m := by
  have hctB : ∀ b ∈ ctrXor (prims.keystream (prims.pbkdf2 p salt 10000 32) iv) 0 m,
      b < 256 :=
    ctrXor_lt _ (fun i => prims.keystream_lt _ _ i) 0 m hmB
  have hallB : ∀ b ∈ salt ++ iv ++
      ctrXor (prims.keystream (prims.pbkdf2 p salt 10000 32) iv) 0 m, b < 256 := by
    intro b hb
    rcases List.mem_append.1 hb with hb | hb
    · rcases List.mem_append.1 hb with hb | hb
      · exact hsB b hb
      · exact hivB b hb
    · exact hctB b hb
  have hdec := b64decode_b64encode _ hallB
  have hne : salt ++ iv ++
      ctrXor (prims.keystream (prims.pbkdf2 p salt 10000 32) iv) 0 m ≠ [] := by
    intro h
    have := congrArg List.length h
    simp [hsalt] at this
  have htake16 : List.take 16 (salt ++ iv ++
      ctrXor (prims.keystream (prims.pbkdf2 p salt 10000 32) iv) 0 m) = salt := by
    rw [List.append_assoc]
    exact List.take_left' hsalt
  have hdt16 : List.take 16 (List.drop 16 (salt ++ iv ++
      ctrXor (prims.keystream (prims.pbkdf2 p salt 10000 32) iv) 0 m)) = iv := by
    rw [List.append_assoc, List.drop_left' hsalt]
    exact List.take_left' hiv
  have hdrop32 : List.drop 32 (salt ++ iv ++
      ctrXor (prims.keystream (prims.pbkdf2 p salt 10000 32) iv) 0 m) =
      ctrXor (prims.keystream (prims.pbkdf2 p salt 10000 32) iv) 0 m :=
    List.drop_left' (by simp [hsalt, hiv])
  refine ⟨b64encode (salt ++ iv ++
      ctrXor (prims.keystream (prims.pbkdf2 p salt 10000 32) iv) 0 m), ?_, ?_⟩
  · unfold encryptMnemonic
    rw [if_neg (by simp [hm, hp]), if_neg (by simp [hvm])]
  · unfold decryptMnemonic
    rw [if_neg (not_or.2 ⟨b64encode_ne_nil hne, hp⟩)]
    simp only [hdec]
    rw [if_neg (by
      simp only [List.length_append, hsalt, hiv, ctrXor_length]
      omega)]
    simp only [htake16, hdt16, hdrop32]
    rw [ctrXor_ctrXor]
    rw [if_pos hvm]

/-- Concrete CTR primitives used by the witnesses: an all-zero PBKDF2 key and
a constant keystream byte. -/
def ctrPrims0 : CtrPrims where
  pbkdf2 := fun _ _ _ _ => List.replicate 32 0
  keystream := fun _ _ _ => 7
  keystream_lt := fun _ _ _ => (by decide : (7 : Nat) < 256)

/-- Concrete GCM primitives used by the witnesses. -/
def gcmPrims0 : GcmPrims where
  pbkdf2 := fun _ _ _ _ => List.replicate 32 0
  gcmEncrypt := fun _ _ pt => pt
  gcmDecrypt := fun _ _ _ => some [9]

/-- Concrete stand-in for `validateMnemonic`: accepts exactly the byte string
`[1, 2, 3]`. -/
def validM0 : List Nat → Bool := fun l => decide (l = [1, 2, 3])

/-- Concrete stand-in for `validateMnemonic`: accepts exactly the byte string
`[9]`. -/
def validM9 : List Nat → Bool := fun l => decide (l = [9])

theorem c1_round_trip_witness :
    ∃ env,
      encryptMnemonic ctrPrims0 validM0 [1, 2, 3] [97]
          (List.replicate 16 0) (List.replicate 16 0) = .ok env ∧
      decryptMnemonic ctrPrims0 validM0 env [97] = .ok [1, 2, 3] :=
  c1_round_trip ctrPrims0 validM0 [1, 2, 3] [97]
    (List.replicate 16 0) (List.replicate 16 0)
    (by decide) (by decide) (by decide) (by decide) (by decide)
    (by decide) (by decide) (by decide)

/-- C2: both decryption paths fail closed — whenever `decryptMnemonic` (CTR
module) or the GUI module's `decryptMnemonic` returns a plaintext rather than
an error, that plaintext passes `validateMnemonic`. -/
theorem c2_fail_closed (prims : CtrPrims) (gprims : GcmPrims)
    (validM : List Nat → Bool) (env : List Char) (p s : List Nat) :
    (decryptMnemonic prims validM env p = .ok s → validM s = true) ∧
    (decryptMnemonicGUI gprims validM env p = .ok s → validM s = true) := by
  constructor
  · intro h
    simp only [decryptMnemonic] at h
    split at h
    · exact absurd h (by simp)
    split at h
    · exact absurd h (by simp)
    split at h
    · rename_i hvalid
      obtain rfl : _ = s := Except.ok.inj h
      exact hvalid
    · exact absurd h (by simp)
  · intro h
    simp only [decryptMnemonicGUI] at h
    split at h
    · exact absurd h (by simp)
    split at h
    · exact absurd h (by simp)
    split at h
    · exact absurd h (by simp)
    split at h
    · rename_i hvalid
      obtain rfl : _ = s := Except.ok.inj h
      exact hvalid
    · exact absurd h (by simp)

theorem c2_fail_closed_witness :
    validM0 [1, 2, 3] = true ∧ validM9 [9] = true :=
  ⟨(c2_fail_closed ctrPrims0 gcmPrims0 validM0
      (b64encode (List.replicate 16 0 ++ List.replicate 16 0 ++ [6, 5, 4]))
      [97] [1, 2, 3]).1 (by decide),
   (c2_fail_closed ctrPrims0 gcmPrims0 validM9
      (b64encode (List.replicate 28 0)) [97] [9]).2 (by decide)⟩

/-- C8 as stated is false: a Base64 input decoding to exactly 32 bytes (which
is less than salt+iv+1 = 33) is **not** rejected by the CTR module's length
check — the check is `data.length < 32`, so the 32-byte envelope proceeds to
key derivation and decryption and is only rejected later by the
mnemonic-validity check. -/
theorem c8_counterexample :
    (b64decode (b64encode (List.replicate 32 0))).length < 33 ∧
      decryptMnemonic ctrPrims0 validM0 (b64encode (List.replicate 32 0)) [97]
        = .error .notValidMnemonic ∧
      decryptMnemonic ctrPrims0 validM0 (b64encode (List.replicate 32 0)) [97]
        ≠ .error .badFormat := by
  refine ⟨by decide, by decide, by decide⟩

/-- C8 (amended): for every input whose Base64-decoded byte length is less
than salt-length + iv-length (32 bytes in the CTR module, 28 bytes in the GCM
module), `decryptMnemonic` rejects it by the length check — uniformly in the
crypto primitives, i.e. before deriving a key or attempting decryption. -/
theorem c8_length_check (prims : CtrPrims) (gprims : GcmPrims)
    (validM : List Nat → Bool) (env : List Char) (p : List Nat)
    (henv : env ≠ []) (hp : p ≠ []) :
    ((b64decode env).length < 32 →
      decryptMnemonic prims validM env p = .error .badFormat) ∧
    ((b64decode env).length < 28 →
      decryptMnemonicGUI gprims validM env p = .error .badFormat) := by
  constructor
  · intro hlen
    unfold decryptMnemonic
    rw [if_neg (by exact not_or.2 ⟨henv, hp⟩)]
    simp only [if_pos hlen]
  · intro hlen
    unfold decryptMnemonicGUI
    rw [if_neg (by exact not_or.2 ⟨henv, hp⟩)]
    simp only [if_pos hlen]

theorem c8_length_check_witness :
    decryptMnemonic ctrPrims0 validM0 (b64encode [0]) [97] = .error .badFormat ∧
    decryptMnemonicGUI gcmPrims0 validM0 (b64encode [0]) [97] = .error .badFormat :=
  ⟨(c8_length_check ctrPrims0 gcmPrims0 validM0 (b64encode [0]) [97]
      (by decide) (by decide)).1 (by decide),
   (c8_length_check ctrPrims0 gcmPrims0 validM0 (b64encode [0]) [97]
      (by decide) (by decide)).2 (by decide)⟩

/-! ## TransactionBroadcaster

`handleSendBatch` in `scripts/tx-server.js` (backend) and the non-backend
branch of `handleBatchSend` in the `GasBatchManager` component (frontend).
The RPC node is modelled by a per-recipient behaviour record: the result of
`provider.estimateGas` (backend only), the outcome of the first
`wallet.sendTransaction`, the pending nonce returned by
`provider.getTransactionCount` on the retry path, and the outcome of the
retry submission.  Waiting (`tx.wait`, `waitForTransaction`, `delay`) changes
no local state and is reflected only in the log. -/

/-- Outcome of one `wallet.sendTransaction` call, classified exactly as the
code classifies errors: `isNonceError` (NONCE_EXPIRED / nonce too low /
already been used), `isInFlightLimitError`, or any other error. -/
inductive SubmitResult where
  | ok (hash : Nat)
  | nonceErr
  | inFlightErr
  | otherErr
deriving DecidableEq, Repr

/-- `true` iff the submission succeeded. -/
def SubmitResult.isOk : SubmitResult → Bool
  | .ok _ => true
  | _ => false

/-- A transaction request as built by the broadcaster:
`{toAddr, value, gasLimit, nonce}` (the fee fields are batch-constant and carry no
per-recipient information). -/
structure Tx where
  toAddr : String
  value : Nat
  gasLimit : Nat
  nonce : Nat
deriving DecidableEq, Repr

/-- What the node answers while one recipient is processed. -/
structure SendBehavior where
  estimateGas : Option Nat
  first : SubmitResult
  fetchedNonce : Nat
  retry : SubmitResult
deriving DecidableEq, Repr

/-- Local state of a batch run: the nonce counter and the hash of the last
submitted transaction. -/
structure SendState where
  nextNonce : Nat
  lastSubmittedHash : Option Nat
deriving DecidableEq, Repr

/-- Log events of a batch run (one constructor per `logs.push`/`setSendLogs`
line of the source, carrying the recipient index). -/
inductive LogEntry where
  | submitted (idx hash : Nat)
  | confirmed (idx : Nat)
  | inFlightWait (idx : Nat)
  | retried (idx hash : Nat)
  | sendFailed (idx : Nat)
  | skipNoKey (idx : Nat)
  | skipInsufficient (idx : Nat)
  | reclaimSubmitted (idx hash : Nat)
  | reclaimConfirmed (idx : Nat)
  | reclaimFailed (idx : Nat)
deriving DecidableEq, Repr

/-- `addGasBuffer` of `scripts/tx-server.js`: add a 20% buffer (integer
division) unless the estimate is non-positive. -/
def addGasBuffer (g : Nat) : Nat := if g = 0 then 0 else g + g / 5

/-- `GAS_LIMIT_FALLBACK` of `scripts/tx-server.js`. -/
def GAS_LIMIT_FALLBACK : Nat := 60000

/-- `estimateGasLimit` of `scripts/tx-server.js`: the buffered estimate, or
the fallback when `provider.estimateGas` throws. -/
def estimateGasLimit (est : Option Nat) (fallback : Nat) : Nat :=
  match est with
  | some e => addGasBuffer e
  | none => fallback

/-- Shared per-recipient submission logic of the backend `handleSendBatch` and
the frontend `handleBatchSend`, which differ only in how the gas limit is
chosen.  Returns the new state, the list of transaction requests that were
handed to `wallet.sendTransaction` for this recipient (in order), and the log
lines. -/
def sendStepCore (waitConfirm : Bool) (value idx : Nat) (toAddr : String)
    (gasLimit : Nat) (first : SubmitResult) (fetchedNonce : Nat)
    (retry : SubmitResult) (s : SendState) :
    SendState × List Tx × List LogEntry :=
  let tx1 : Tx := ⟨toAddr, value, gasLimit, s.nextNonce⟩
  match first with
  | .ok h =>
      (⟨s.nextNonce + 1, some h⟩, [tx1],
        .submitted idx h :: (if waitConfirm then [.confirmed idx] else []))
  | .otherErr => (s, [tx1], [.sendFailed idx])
  | .nonceErr =>
      let tx2 : Tx := ⟨toAddr, value, gasLimit, fetchedNonce⟩
      match retry with
      | .ok h =>
          (⟨fetchedNonce + 1, some h⟩, [tx1, tx2],
            .retried idx h :: (if waitConfirm then [.confirmed idx] else []))
      | _ => (⟨fetchedNonce, s.lastSubmittedHash⟩, [tx1, tx2], [.sendFailed idx])
  | .inFlightErr =>
      let tx2 : Tx := ⟨toAddr, value, gasLimit, fetchedNonce⟩
      match retry with
      | .ok h =>
          (⟨fetchedNonce + 1, some h⟩, [tx1, tx2],
            .inFlightWait idx :: .retried idx h ::
              (if waitConfirm then [.confirmed idx] else []))
      | _ =>
          (⟨fetchedNonce, s.lastSubmittedHash⟩, [tx1, tx2],
            [.inFlightWait idx, .sendFailed idx])

/-- One loop iteration of `handleSendBatch` (backend): the gas limit is
estimated per recipient via `estimateGasLimit` with the 60000 fallback. -/
def sendStep (waitConfirm : Bool) (value idx : Nat) (toAddr : String)
    (b : SendBehavior) (s : SendState) : SendState × List Tx × List LogEntry :=
  sendStepCore waitConfirm value idx toAddr
    (estimateGasLimit b.estimateGas GAS_LIMIT_FALLBACK)
    b.first b.fetchedNonce b.retry s

/-- One loop iteration of `handleBatchSend` (frontend): the gas limit is the
fixed constant 21000 in both the initial and the retry submission. -/
def feSendStep (waitConfirm : Bool) (value idx : Nat) (toAddr : String)
    (b : SendBehavior) (s : SendState) : SendState × List Tx × List LogEntry :=
  sendStepCore waitConfirm value idx toAddr 21000 b.first b.fetchedNonce b.retry s

/-- Run a batch: process the jobs sequentially from index `idx`, threading the
state and collecting one transaction-attempt list per recipient plus the
concatenated log. -/
def runBatchFrom (step : Nat → String × SendBehavior → SendState →
    SendState × List Tx × List LogEntry) (idx : Nat) (s : SendState) :
    List (String × SendBehavior) → SendState × List (List Tx) × List LogEntry
  | [] => (s, [], [])
  | j :: rest =>
      let r := step idx j s
      let r' := runBatchFrom step (idx + 1) r.1 rest
      (r'.1, r.2.1 :: r'.2.1, r.2.2 ++ r'.2.2)

/-- `handleSendBatch` of `scripts/tx-server.js`: start from the pending nonce
fetched from the chain and process every recipient in order. -/
def runSendBatch (waitConfirm : Bool) (value startNonce : Nat)
    (jobs : List (String × SendBehavior)) :
    SendState × List (List Tx) × List LogEntry :=
  runBatchFrom (fun i j s => sendStep waitConfirm value i j.1 j.2 s) 0
    ⟨startNonce, none⟩ jobs

/-- The frontend `handleBatchSend` batch loop. -/
def runFeSendBatch (waitConfirm : Bool) (value startNonce : Nat)
    (jobs : List (String × SendBehavior)) :
    SendState × List (List Tx) × List LogEntry :=
  runBatchFrom (fun i j s => feSendStep waitConfirm value i j.1 j.2 s) 0
    ⟨startNonce, none⟩ jobs

/-- The list `n, n+1, …, n+k-1` of `k` consecutive nonces. -/
def consecFrom : Nat → Nat → List Nat
  | _, 0 => []
  | n, k + 1 => n :: consecFrom (n + 1) k

theorem sendStepCore_ok (waitConfirm : Bool) (value idx : Nat) (toAddr : String)
    (gasLimit : Nat) (h fetchedNonce : Nat) (retry : SubmitResult)
    (s : SendState) :
    sendStepCore waitConfirm value idx toAddr gasLimit (.ok h) fetchedNonce retry s =
      (⟨s.nextNonce + 1, some h⟩, [⟨toAddr, value, gasLimit, s.nextNonce⟩],
        .submitted idx h :: (if waitConfirm then [.confirmed idx] else [])) := rfl

theorem runBatchFrom_length (step) (idx : Nat) (s : SendState)
    (jobs : List (String × SendBehavior)) :
    (runBatchFrom step idx s jobs).2.1.length = jobs.length := by
  induction jobs generalizing idx s with
  | nil => rfl
  | cons j rest ih => simp [runBatchFrom, ih]

theorem runBatchFrom_allOk_nonces
    (gl : Nat → String × SendBehavior → Nat) (waitConfirm : Bool) (value : Nat)
    (jobs : List (String × SendBehavior))
    (hok : ∀ j ∈ jobs, ∃ h, j.2.first = SubmitResult.ok h) :
    ∀ idx n0 lastH,
      ((runBatchFrom (fun i j s => sendStepCore waitConfirm value i j.1
          (gl i j) j.2.first j.2.fetchedNonce j.2.retry s) idx ⟨n0, lastH⟩
        jobs).2.1.map (fun txs => txs.map Tx.nonce)) =
        (consecFrom n0 jobs.length).map (fun n => [n]) := by
  induction jobs with
  | nil => intro idx n0 lastH; rfl
  | cons j rest ih =>
      intro idx n0 lastH
      obtain ⟨h, hfirst⟩ := hok j (by simp)
      simp only [runBatchFrom, hfirst, sendStepCore_ok, List.length_cons,
        consecFrom, List.map_cons, List.map_nil]
      exact congrArg _ (ih (fun x hx => hok x (by simp [hx])) (idx + 1) (n0 + 1) (some h))

/-- C3: in a batch send in which every submission succeeds, recipient `i`'s
transaction carries nonce `startNonce + i` — so the nonce for recipient `i+1`
equals the nonce for recipient `i` plus 1 — in both the backend
`handleSendBatch` and the frontend `handleBatchSend`; and a failed submission
(non-retryable error) leaves the local nonce counter unchanged in both. -/
theorem c3_nonce_monotone :
    (∀ (waitConfirm : Bool) (value startNonce : Nat)
        (jobs : List (String × SendBehavior)),
      (∀ j ∈ jobs, ∃ h, j.2.first = SubmitResult.ok h) →
      ((runSendBatch waitConfirm value startNonce jobs).2.1.map
          (fun txs => txs.map Tx.nonce))
        = (consecFrom startNonce jobs.length).map (fun n => [n]) ∧
      ((runFeSendBatch waitConfirm value startNonce jobs).2.1.map
          (fun txs => txs.map Tx.nonce))
        = (consecFrom startNonce jobs.length).map (fun n => [n])) ∧
    (∀ (waitConfirm : Bool) (value idx : Nat) (toAddr : String)
        (b : SendBehavior) (s : SendState),
      b.first = SubmitResult.otherErr →
      (sendStep waitConfirm value idx toAddr b s).1 = s ∧
      (feSendStep waitConfirm value idx toAddr b s).1 = s) := by
  constructor
  · intro waitConfirm value startNonce jobs hok
    exact ⟨runBatchFrom_allOk_nonces _ waitConfirm value jobs hok 0 startNonce none,
      runBatchFrom_allOk_nonces _ waitConfirm value jobs hok 0 startNonce none⟩
  · intro waitConfirm value idx toAddr b s hfail
    constructor
    · simp [sendStep, sendStepCore, hfail]
    · simp [feSendStep, sendStepCore, hfail]

theorem c3_nonce_monotone_witness :
    ((runSendBatch false 5 40
        [("a", ⟨some 21000, .ok 1, 0, .ok 1⟩), ("b", ⟨none, .ok 2, 0, .ok 2⟩),
         ("c", ⟨some 0, .ok 3, 0, .ok 3⟩)]).2.1.map
        (fun txs => txs.map Tx.nonce))
      = [[40], [41], [42]] ∧
    (sendStep false 5 0 "a" ⟨none, .otherErr, 9, .ok 1⟩ ⟨40, none⟩).1
      = ⟨40, none⟩ := by
  constructor
  · refine ((c3_nonce_monotone.1 false 5 40 _ ?_).1).trans (by decide)
    intro j hj
    simp only [List.mem_cons, List.not_mem_nil, or_false] at hj
    rcases hj with rfl | rfl | rfl
    · exact ⟨1, rfl⟩
    · exact ⟨2, rfl⟩
    · exact ⟨3, rfl⟩
  · exact (c3_nonce_monotone.2 false 5 0 "a" ⟨none, .otherErr, 9, .ok 1⟩
      ⟨40, none⟩ (by decide)).1

/-- C4: in both broadcasters, a first submission failing with a stale-nonce
error leads to exactly two submission attempts for that recipient — the retry
using the freshly fetched pending nonce — and when the retry also fails the
recipient is logged as failed (with no further attempt); a recipient's
failure never shortens the batch: one attempt list is produced per recipient
regardless of the behaviours. -/
theorem c4_stale_nonce_retry :
    (∀ (waitConfirm : Bool) (value idx : Nat) (toAddr : String) (b : SendBehavior)
        (s : SendState),
      b.first = SubmitResult.nonceErr →
      ((sendStep waitConfirm value idx toAddr b s).2.1 =
        [⟨toAddr, value, estimateGasLimit b.estimateGas GAS_LIMIT_FALLBACK, s.nextNonce⟩,
         ⟨toAddr, value, estimateGasLimit b.estimateGas GAS_LIMIT_FALLBACK, b.fetchedNonce⟩] ∧
       (feSendStep waitConfirm value idx toAddr b s).2.1 =
        [⟨toAddr, value, 21000, s.nextNonce⟩, ⟨toAddr, value, 21000, b.fetchedNonce⟩]) ∧
      (b.retry.isOk = false →
        (sendStep waitConfirm value idx toAddr b s).2.2 = [.sendFailed idx] ∧
        (feSendStep waitConfirm value idx toAddr b s).2.2 = [.sendFailed idx])) ∧
    (∀ (waitConfirm : Bool) (value startNonce : Nat)
        (jobs : List (String × SendBehavior)),
      (runSendBatch waitConfirm value startNonce jobs).2.1.length = jobs.length ∧
      (runFeSendBatch waitConfirm value startNonce jobs).2.1.length = jobs.length) := by
  constructor
  · intro waitConfirm value idx toAddr b s hfirst
    constructor
    · constructor
      · simp only [sendStep, sendStepCore, hfirst]
        rcases b.retry with h | _ | _ | _ <;> rfl
      · simp only [feSendStep, sendStepCore, hfirst]
        rcases b.retry with h | _ | _ | _ <;> rfl
    · intro hretry
      constructor
      · revert hretry
        simp only [sendStep, sendStepCore, hfirst]
        rcases b.retry with h | _ | _ | _ <;> intro hretry
        · simp [SubmitResult.isOk] at hretry
        · rfl
        · rfl
        · rfl
      · revert hretry
        simp only [feSendStep, sendStepCore, hfirst]
        rcases b.retry with h | _ | _ | _ <;> intro hretry
        · simp [SubmitResult.isOk] at hretry
        · rfl
        · rfl
        · rfl
  · intro waitConfirm value startNonce jobs
    exact ⟨runBatchFrom_length _ 0 _ jobs, runBatchFrom_length _ 0 _ jobs⟩

theorem c4_stale_nonce_retry_witness :
    ((sendStep false 5 2 "a" ⟨none, .nonceErr, 17, .otherErr⟩ ⟨9, none⟩).2.1 =
      [⟨"a", 5, 60000, 9⟩, ⟨"a", 5, 60000, 17⟩] ∧
     (feSendStep false 5 2 "a" ⟨none, .nonceErr, 17, .otherErr⟩ ⟨9, none⟩).2.1 =
      [⟨"a", 5, 21000, 9⟩, ⟨"a", 5, 21000, 17⟩]) ∧
    ((sendStep false 5 2 "a" ⟨none, .nonceErr, 17, .otherErr⟩ ⟨9, none⟩).2.2 =
      [.sendFailed 2] ∧
     (feSendStep false 5 2 "a" ⟨none, .nonceErr, 17, .otherErr⟩ ⟨9, none⟩).2.2 =
      [.sendFailed 2]) :=
  ⟨((c4_stale_nonce_retry.1 false 5 2 "a" ⟨none, .nonceErr, 17, .otherErr⟩
      ⟨9, none⟩ (by decide)).1),
   ((c4_stale_nonce_retry.1 false 5 2 "a" ⟨none, .nonceErr, 17, .otherErr⟩
      ⟨9, none⟩ (by decide)).2 (by decide))⟩

/-- C6 as stated is false for the backend broadcaster: `handleSendBatch` in
`scripts/tx-server.js` does not use a fixed 21000 gas limit — when
`provider.estimateGas` throws it uses the 60000 fallback (and otherwise the
estimate plus a 20% buffer), so a successfully built and submitted
transaction carries gas limit 60000 ≠ 21000. -/
theorem c6_counterexample :
    ((sendStep false 5 0 "a" ⟨none, .ok 1, 0, .ok 1⟩ ⟨0, none⟩).2.1.map
        Tx.gasLimit) = [60000] ∧ (60000 : Nat) ≠ 21000 := by
  exact ⟨by decide, by decide⟩

/-- C6 (amended): the frontend broadcaster `handleBatchSend` attaches the
fixed gas limit 21000 to every transaction it builds, for all recipients, in
both the initial submission and any retry; the backend `handleSendBatch`
instead attaches the per-recipient estimated gas limit (`estimateGas` plus a
20% buffer, 60000 on estimation failure), the same value in the initial
submission and in any retry. -/
theorem c6_gas_limit (waitConfirm : Bool) (value idx : Nat) (toAddr : String)
    (b : SendBehavior) (s : SendState) :
    (∀ tx ∈ (feSendStep waitConfirm value idx toAddr b s).2.1, tx.gasLimit = 21000) ∧
    (∀ tx ∈ (sendStep waitConfirm value idx toAddr b s).2.1,
      tx.gasLimit = estimateGasLimit b.estimateGas GAS_LIMIT_FALLBACK) := by
  constructor
  · intro tx htx
    simp only [feSendStep, sendStepCore] at htx
    rcases hb : b.first with h | _ | _ | _ <;> rw [hb] at htx
    · simp at htx
      simp [htx]
    · rcases hr : b.retry with h | _ | _ | _ <;> rw [hr] at htx <;>
        simp at htx <;> rcases htx with h1 | h1 <;> simp [h1]
    · rcases hr : b.retry with h | _ | _ | _ <;> rw [hr] at htx <;>
        simp at htx <;> rcases htx with h1 | h1 <;> simp [h1]
    · simp at htx
      simp [htx]
  · intro tx htx
    simp only [sendStep, sendStepCore] at htx
    rcases hb : b.first with h | _ | _ | _ <;> rw [hb] at htx
    · simp at htx
      simp [htx]
    · rcases hr : b.retry with h | _ | _ | _ <;> rw [hr] at htx <;>
        simp at htx <;> rcases htx with h1 | h1 <;> simp [h1]
    · rcases hr : b.retry with h | _ | _ | _ <;> rw [hr] at htx <;>
        simp at htx <;> rcases htx with h1 | h1 <;> simp [h1]
    · simp at htx
      simp [htx]

theorem c6_gas_limit_witness :
    (⟨"a", 5, 21000, 9⟩ : Tx).gasLimit = 21000 ∧
    (⟨"a", 5, 60000, 9⟩ : Tx).gasLimit =
      estimateGasLimit none GAS_LIMIT_FALLBACK :=
  ⟨(c6_gas_limit false 5 2 "a" ⟨none, .nonceErr, 17, .otherErr⟩ ⟨9, none⟩).1
      ⟨"a", 5, 21000, 9⟩ (by decide),
   (c6_gas_limit false 5 2 "a" ⟨none, .nonceErr, 17, .otherErr⟩ ⟨9, none⟩).2
      ⟨"a", 5, 60000, 9⟩ (by decide)⟩

/-! ## ReclaimEngine

`handleReclaimBatch` in `scripts/tx-server.js`.  Per entry, the node's answers
(pending nonce, balance, the two `estimateGas` results, and the submission
outcome) form a behaviour record; balances and sendable amounts are `Int`
(ethers bigints, where `balance - reserve - gasCost` may be negative). -/

/-- What the node answers while one reclaim entry is processed. -/
structure ReclaimBehavior where
  nonce : Nat
  balance : Int
  estimate1 : Option Nat
  estimate2 : Option Nat
  submit : SubmitResult
deriving DecidableEq, Repr

/-- A reclaim transaction request `{to := reclaimAddress, value := sendable,
gasLimit, nonce}`. -/
structure ReclaimTx where
  toAddr : String
  value : Int
  gasLimit : Nat
  nonce : Nat
deriving DecidableEq, Repr

/-- One loop iteration of `handleReclaimBatch`: skip entries without a private
key; compute `sendable = balance - reserve - gasCost` from the probe gas
estimate (fallback 60000) and skip if non-positive; re-estimate with the
actual amount (fallback: the first estimate) and skip again if non-positive;
otherwise submit once — any submission error is logged as a reclaim failure
with no retry.  Returns the submission attempts and the log lines. -/
def reclaimStep (waitConfirm : Bool) (reclaimAddress : String)
    (maxFeePerGas : Nat) (reserveWei : Int) (idx : Nat)
    (entry : String × String) (b : ReclaimBehavior) :
    List ReclaimTx × List LogEntry :=
  if entry.2 = "" then ([], [.skipNoKey idx])
  else
    let estimatedGasLimit := estimateGasLimit b.estimate1 GAS_LIMIT_FALLBACK
    let gasCost : Int := (estimatedGasLimit : Int) * (maxFeePerGas : Int)
    let sendable := b.balance - reserveWei - gasCost
    if sendable ≤ 0 then ([], [.skipInsufficient idx])
    else
      let finalGasLimit := estimateGasLimit b.estimate2 estimatedGasLimit
      let finalGasCost : Int := (finalGasLimit : Int) * (maxFeePerGas : Int)
      let finalSendable := b.balance - reserveWei - finalGasCost
      if finalSendable ≤ 0 then ([], [.skipInsufficient idx])
      else
        match b.submit with
        | .ok h =>
            ([⟨reclaimAddress, finalSendable, finalGasLimit, b.nonce⟩],
              .reclaimSubmitted idx h ::
                (if waitConfirm then [.reclaimConfirmed idx] else []))
        | _ =>
            ([⟨reclaimAddress, finalSendable, finalGasLimit, b.nonce⟩],
              [.reclaimFailed idx])

/-- The `handleReclaimBatch` loop: process every entry in order from index
`idx`, collecting one attempt list per entry and the concatenated log. -/
def runReclaimFrom (waitConfirm : Bool) (reclaimAddress : String)
    (maxFeePerGas : Nat) (reserveWei : Int) (idx : Nat) :
    List ((String × String) × ReclaimBehavior) →
      List (List ReclaimTx) × List LogEntry
  | [] => ([], [])
  | e :: rest =>
      let r := reclaimStep waitConfirm reclaimAddress maxFeePerGas reserveWei
        idx e.1 e.2
      let r' := runReclaimFrom waitConfirm reclaimAddress maxFeePerGas
        reserveWei (idx + 1) rest
      (r.1 :: r'.1, r.2 ++ r'.2)

/-- `handleReclaimBatch` of `scripts/tx-server.js`, from entry index 0. -/
def runReclaimBatch (waitConfirm : Bool) (reclaimAddress : String)
    (maxFeePerGas : Nat) (reserveWei : Int)
    (entries : List ((String × String) × ReclaimBehavior)) :
    List (List ReclaimTx) × List LogEntry :=
  runReclaimFrom waitConfirm reclaimAddress maxFeePerGas reserveWei 0 entries

theorem runReclaimFrom_length (waitConfirm : Bool) (reclaimAddress : String)
    (maxFeePerGas : Nat) (reserveWei : Int) (idx : Nat)
    (entries : List ((String × String) × ReclaimBehavior)) :
    (runReclaimFrom waitConfirm reclaimAddress maxFeePerGas reserveWei idx
      entries).1.length = entries.length := by
  induction entries generalizing idx with
  | nil => rfl
  | cons e rest ih => simp [runReclaimFrom, ih]

/-- C5: in `handleReclaimBatch`, an account whose computed sendable amount
(balance minus reserve minus estimated gas cost) is non-positive — at the
probe estimate or at the re-estimate — produces no transaction submission and
exactly one insufficient-balance skip line; and the batch always processes
every entry (one attempt list per entry), so it proceeds to the next
account. -/
theorem c5_reclaim_skip :
    (∀ (waitConfirm : Bool) (reclaimAddress : String) (maxFeePerGas : Nat)
        (reserveWei : Int) (idx : Nat) (entry : String × String)
        (b : ReclaimBehavior),
      entry.2 ≠ "" →
      b.balance - reserveWei -
          (estimateGasLimit b.estimate1 GAS_LIMIT_FALLBACK : Int) *
            (maxFeePerGas : Int) ≤ 0 →
      reclaimStep waitConfirm reclaimAddress maxFeePerGas reserveWei idx entry b
        = ([], [.skipInsufficient idx])) ∧
    (∀ (waitConfirm : Bool) (reclaimAddress : String) (maxFeePerGas : Nat)
        (reserveWei : Int) (idx : Nat) (entry : String × String)
        (b : ReclaimBehavior),
      entry.2 ≠ "" →
      b.balance - reserveWei -
          (estimateGasLimit b.estimate2
              (estimateGasLimit b.estimate1 GAS_LIMIT_FALLBACK) : Int) *
            (maxFeePerGas : Int) ≤ 0 →
      reclaimStep waitConfirm reclaimAddress maxFeePerGas reserveWei idx entry b
        = ([], [.skipInsufficient idx])) ∧
    (∀ (waitConfirm : Bool) (reclaimAddress : String) (maxFeePerGas : Nat)
        (reserveWei : Int)
        (entries : List ((String × String) × ReclaimBehavior)),
      (runReclaimBatch waitConfirm reclaimAddress maxFeePerGas reserveWei
        entries).1.length = entries.length) := by
  refine ⟨?_, ?_, ?_⟩
  · intro waitConfirm reclaimAddress maxFeePerGas reserveWei idx entry b hkey hle
    simp only [reclaimStep]
    rw [if_neg hkey, if_pos hle]
  · intro waitConfirm reclaimAddress maxFeePerGas reserveWei idx entry b hkey hle
    simp only [reclaimStep]
    rw [if_neg hkey]
    by_cases h1 : b.balance - reserveWei -
        (estimateGasLimit b.estimate1 GAS_LIMIT_FALLBACK : Int) *
          (maxFeePerGas : Int) ≤ 0
    · rw [if_pos h1]
    · rw [if_neg h1, if_pos hle]
  · intro waitConfirm reclaimAddress maxFeePerGas reserveWei entries
    exact runReclaimFrom_length waitConfirm reclaimAddress maxFeePerGas
      reserveWei 0 entries

theorem c5_reclaim_skip_witness :
    (reclaimStep false "r" 1 0 3 ("a", "k") ⟨5, 100, none, none, .ok 1⟩
      = ([], [.skipInsufficient 3])) ∧
    (reclaimStep false "r" 1 0 4 ("a", "k") ⟨5, 70000, some 50000, some 60000, .ok 1⟩
      = ([], [.skipInsufficient 4])) ∧
    (runReclaimBatch false "r" 1 0
        [(("a", "k"), ⟨5, 100, none, none, .ok 1⟩),
         (("b", ""), ⟨0, 0, none, none, .ok 1⟩)]).1.length = 2 :=
  ⟨c5_reclaim_skip.1 false "r" 1 0 3 ("a", "k") ⟨5, 100, none, none, .ok 1⟩
      (by decide) (by decide),
   c5_reclaim_skip.2.1 false "r" 1 0 4 ("a", "k")
      ⟨5, 70000, some 50000, some 60000, .ok 1⟩ (by decide) (by decide),
   c5_reclaim_skip.2.2 false "r" 1 0 _⟩

/-- C7 as stated is false: the reclaim engine does not apply the
broadcaster's retry policy.  On a concrete entry with ample balance whose
submission fails with a stale-nonce error, `handleReclaimBatch` makes exactly
one submission attempt (not two) and immediately logs the reclaim as failed —
no fresh nonce is fetched and no retry occurs. -/
theorem c7_counterexample :
    (reclaimStep false "r" 1 0 0 ("a", "k")
        ⟨5, 1000000000, none, none, .nonceErr⟩).1.length = 1 ∧
    (reclaimStep false "r" 1 0 0 ("a", "k")
        ⟨5, 1000000000, none, none, .nonceErr⟩).1.length ≠ 2 ∧
    (reclaimStep false "r" 1 0 0 ("a", "k")
        ⟨5, 1000000000, none, none, .nonceErr⟩).2 = [.reclaimFailed 0] := by
  exact ⟨by decide, by decide, by decide⟩

/-- C7 (amended): the reclaim engine submits at most once per source account;
any submission failure — stale-nonce, in-flight-limit, or other — is logged
immediately as a reclaim failure for that account with no retry, and the
batch still processes every entry. -/
theorem c7_no_retry :
    (∀ (waitConfirm : Bool) (reclaimAddress : String) (maxFeePerGas : Nat)
        (reserveWei : Int) (idx : Nat) (entry : String × String)
        (b : ReclaimBehavior),
      (reclaimStep waitConfirm reclaimAddress maxFeePerGas reserveWei idx
        entry b).1.length ≤ 1 ∧
      (b.submit.isOk = false →
        (reclaimStep waitConfirm reclaimAddress maxFeePerGas reserveWei idx
            entry b).1 = [] ∨
        (reclaimStep waitConfirm reclaimAddress maxFeePerGas reserveWei idx
            entry b).2 = [.reclaimFailed idx])) ∧
    (∀ (waitConfirm : Bool) (reclaimAddress : String) (maxFeePerGas : Nat)
        (reserveWei : Int)
        (entries : List ((String × String) × ReclaimBehavior)),
      (runReclaimBatch waitConfirm reclaimAddress maxFeePerGas reserveWei
        entries).1.length = entries.length) := by
  constructor
  · intro waitConfirm reclaimAddress maxFeePerGas reserveWei idx entry b
    constructor
    · simp only [reclaimStep]
      by_cases hk : entry.2 = ""
      · rw [if_pos hk]
        simp
      rw [if_neg hk]
      by_cases h1 : b.balance - reserveWei -
          (estimateGasLimit b.estimate1 GAS_LIMIT_FALLBACK : Int) *
            (maxFeePerGas : Int) ≤ 0
      · rw [if_pos h1]
        simp
      rw [if_neg h1]
      by_cases h2 : b.balance - reserveWei -
          (estimateGasLimit b.estimate2
              (estimateGasLimit b.estimate1 GAS_LIMIT_FALLBACK) : Int) *
            (maxFeePerGas : Int) ≤ 0
      · rw [if_pos h2]
        simp
      rw [if_neg h2]
      rcases b.submit with h | _ | _ | _ <;> simp
    · intro hsub
      simp only [reclaimStep]
      by_cases hk : entry.2 = ""
      · rw [if_pos hk]
        exact Or.inl rfl
      rw [if_neg hk]
      by_cases h1 : b.balance - reserveWei -
          (estimateGasLimit b.estimate1 GAS_LIMIT_FALLBACK : Int) *
            (maxFeePerGas : Int) ≤ 0
      · rw [if_pos h1]
        exact Or.inl rfl
      rw [if_neg h1]
      by_cases h2 : b.balance - reserveWei -
          (estimateGasLimit b.estimate2
              (estimateGasLimit b.estimate1 GAS_LIMIT_FALLBACK) : Int) *
            (maxFeePerGas : Int) ≤ 0
      · rw [if_pos h2]
        exact Or.inl rfl
      rw [if_neg h2]
      refine Or.inr ?_
      revert hsub
      rcases b.submit with h | _ | _ | _ <;> intro hsub
      · simp [SubmitResult.isOk] at hsub
      · rfl
      · rfl
      · rfl
  · intro waitConfirm reclaimAddress maxFeePerGas reserveWei entries
    exact runReclaimFrom_length waitConfirm reclaimAddress maxFeePerGas
      reserveWei 0 entries

theorem c7_no_retry_witness :
    (reclaimStep false "r" 1 0 0 ("a", "k")
        ⟨5, 1000000000, none, none, .inFlightErr⟩).1.length ≤ 1 ∧
    ((reclaimStep false "r" 1 0 0 ("a", "k")
        ⟨5, 1000000000, none, none, .inFlightErr⟩).1 = [] ∨
      (reclaimStep false "r" 1 0 0 ("a", "k")
        ⟨5, 1000000000, none, none, .inFlightErr⟩).2 = [.reclaimFailed 0]) :=
  ⟨(c7_no_retry.1 false "r" 1 0 0 ("a", "k")
      ⟨5, 1000000000, none, none, .inFlightErr⟩).1,
   (c7_no_retry.1 false "r" 1 0 0 ("a", "k")
      ⟨5, 1000000000, none, none, .inFlightErr⟩).2 (by decide)⟩

/-! ## Funding-secret classification

`resolveFundingWallet` in `scripts/tx-server.js` (backend) versus
`guessSecretType`/`resolveFundingWallet` in the `GasBatchManager` component
(frontend).  JS strings are modelled as `List Char` (so that `trim`, `split`
and `startsWith` are kernel-computable); wallet construction by ethers is
represented symbolically by `WalletSpec` (a phrase-derived wallet with its
path, or a private-key wallet). -/

/-- `value.trim()`: strip whitespace from both ends. -/
def jsTrim (s : List Char) : List Char :=
  ((s.dropWhile Char.isWhitespace).reverse.dropWhile Char.isWhitespace).reverse

/-- Helper of `wordsOf`: accumulate the current word (reversed) while
scanning. -/
def wordsOfAux : List Char → List Char → List (List Char)
  | acc, [] => if acc = [] then [] else [acc.reverse]
  | acc, c :: rest =>
      if c.isWhitespace then
        if acc = [] then wordsOfAux [] rest else acc.reverse :: wordsOfAux [] rest
      else wordsOfAux (c :: acc) rest

/-- `value.split(/\s+/).filter(Boolean)`: the maximal non-whitespace runs. -/
def wordsOf (s : List Char) : List (List Char) := wordsOfAux [] s

/-- `trimmed.startsWith('0x')`. -/
def startsWith0x : List Char → Bool
  | '0' :: 'x' :: _ => true
  | _ => false

/-- Result of `guessSecretType` in the frontend. -/
inductive SecretType where
  | mnemonic
  | privateKey
  | unknown
deriving DecidableEq, Repr

/-- How a funding wallet is built: from a mnemonic phrase with a derivation
path (`ethers.Wallet.fromPhrase`), or from a hex private key
(`new ethers.Wallet`). -/
inductive WalletSpec where
  | phrase (m path : List Char)
  | key (k : List Char)
deriving DecidableEq, Repr

/-- `resolveFundingWallet` of `scripts/tx-server.js`: reject an empty secret;
treat 12 or more whitespace-separated words as a mnemonic phrase (with
`path || FUNDING_PATH`); treat anything else as a hex private key, prepending
`0x` when absent.  There is no unrecognized-secret branch. -/
def resolveFundingWalletServer (secret path defaultPath : List Char) :
    Except Unit WalletSpec :=
  let trimmed := jsTrim secret
  if trimmed = [] then .error ()
  else if 12 ≤ (wordsOf trimmed).length then
    .ok (.phrase trimmed (if path = [] then defaultPath else path))
  else
    .ok (.key (if startsWith0x trimmed then trimmed else '0' :: 'x' :: trimmed))

/-- `guessSecretType` of the `GasBatchManager` component: 12+ words is a
mnemonic; otherwise a string of length ≥ 64 (with or without `0x`) is a
private key; everything else is `unknown`. -/
def guessSecretType (value : List Char) : SecretType :=
  let trimmed := jsTrim value
  if 12 ≤ (wordsOf trimmed).length then .mnemonic
  else if startsWith0x trimmed ∧ 64 ≤ trimmed.length then .privateKey
  else if startsWith0x trimmed = false ∧ 64 ≤ trimmed.length then .privateKey
  else .unknown

/-- `resolveFundingWallet` of the `GasBatchManager` component: classify via
`guessSecretType` and reject `unknown` secrets. -/
def resolveFundingWalletFrontend (fundingSecret fundingPath : List Char) :
    Except Unit WalletSpec :=
  let trimmed := jsTrim fundingSecret
  match guessSecretType trimmed with
  | .mnemonic => .ok (.phrase trimmed fundingPath)
  | .privateKey =>
      .ok (.key (if startsWith0x trimmed then trimmed
        else '0' :: 'x' :: trimmed))
  | .unknown => .error ()

/-- C10: the backend's `resolveFundingWallet` classifies every non-empty
funding secret with fewer than 12 words as a hex private key (prepending `0x`
when absent); it rejects a secret exactly when it is empty after trimming (no
unrecognized-secret branch); whereas the frontend returns `unknown` for the
short non-hex input `"abc"` and rejects the send — on which the backend
happily builds the private-key wallet `0xabc`, so the two entry points
disagree on which funding secrets are accepted. -/
theorem c10_secret_classification :
    (∀ secret path defaultPath : List Char,
      jsTrim secret ≠ [] → (wordsOf (jsTrim secret)).length < 12 →
      resolveFundingWalletServer secret path defaultPath =
        .ok (.key (if startsWith0x (jsTrim secret) then jsTrim secret
          else '0' :: 'x' :: jsTrim secret))) ∧
    (∀ secret path defaultPath : List Char,
      resolveFundingWalletServer secret path defaultPath = .error () ↔
        jsTrim secret = []) ∧
    (guessSecretType ['a', 'b', 'c'] = .unknown ∧
      (∀ p, resolveFundingWalletFrontend ['a', 'b', 'c'] p = .error ()) ∧
      (∀ p d, resolveFundingWalletServer ['a', 'b', 'c'] p d =
        .ok (.key ['0', 'x', 'a', 'b', 'c']))) := by
  refine ⟨?_, ?_, ?_, ?_, ?_⟩
  · intro secret path defaultPath hne hlt
    simp only [resolveFundingWalletServer]
    rw [if_neg hne, if_neg (by omega)]
  · intro secret path defaultPath
    simp only [resolveFundingWalletServer]
    by_cases h : jsTrim secret = []
    · rw [if_pos h]
      simp [h]
    · rw [if_neg h]
      by_cases h12 : 12 ≤ (wordsOf (jsTrim secret)).length
      · rw [if_pos h12]
        simp [h]
      · rw [if_neg h12]
        simp [h]
  · decide
  · intro p
    rfl
  · intro p d
    rfl

theorem c10_secret_classification_witness :
    resolveFundingWalletServer ['x', 'y'] [] ['d'] =
      .ok (.key ['0', 'x', 'x', 'y']) :=
  (c10_secret_classification.1 ['x', 'y'] [] ['d'] (by decide)
    (by decide)).trans (by decide)

/-! ## Bit-string infrastructure for the BIP39 model

The `bip39` library dependency works on binary strings: bytes are rendered as
8-bit MSB-first binary, concatenated, regrouped into 11-bit chunks, and parsed
back with `parseInt(_, 2)`.  Bits are `Bool` (MSB first), `bitsToNat` is the
binary value of a bit string, and `natToBits w n` is the `w`-bit MSB-first
rendering of `n` (JS `lpad(num.toString(2), '0', w)`). -/

/-- `parseInt(binary, 2)` accumulator. -/
def bitsToNatAux : Nat → List Bool → Nat
  | acc, [] => acc
  | acc, b :: rest => bitsToNatAux (2 * acc + (if b then 1 else 0)) rest

/-- Value of an MSB-first binary string. -/
def bitsToNat (l : List Bool) : Nat := bitsToNatAux 0 l

/-- `w`-bit MSB-first binary rendering of `n`. -/
def natToBits : Nat → Nat → List Bool
  | 0, _ => []
  | w + 1, n => natToBits w (n / 2) ++ [decide (n % 2 = 1)]

theorem natToBits_length (w n : Nat) : (natToBits w n).length = w := by
  induction w generalizing n with
  | zero => rfl
  | succ w ih => simp [natToBits, ih]

theorem bitsToNatAux_append (l₁ l₂ : List Bool) (acc : Nat) :
    bitsToNatAux acc (l₁ ++ l₂) = bitsToNatAux (bitsToNatAux acc l₁) l₂ := by
  induction l₁ generalizing acc with
  | nil => rfl
  | cons b rest ih =>
      rw [List.cons_append]
      simp only [bitsToNatAux]
      exact ih _

theorem bitsToNat_append_bit (l : List Bool) (b : Bool) :
    bitsToNat (l ++ [b]) = 2 * bitsToNat l + (if b then 1 else 0) := by
  simp only [bitsToNat, bitsToNatAux_append]
  rfl

theorem natToBits_bitsToNat : ∀ l : List Bool, natToBits l.length (bitsToNat l) = l := by
  intro l
  induction l using List.reverseRecOn with
  | nil => rfl
  | append_singleton l b ih =>
      have hmod : (2 * bitsToNat l + (if b then 1 else 0)) % 2 =
          (if b then 1 else 0) := by
        rcases b with _ | _ <;> simp <;> omega
      have hdiv : (2 * bitsToNat l + (if b then 1 else 0)) / 2 = bitsToNat l := by
        rcases b with _ | _ <;> simp <;> omega
      rw [bitsToNat_append_bit, List.length_append, List.length_singleton,
        natToBits, hdiv, hmod, ih]
      rcases b with _ | _ <;> simp

theorem bitsToNat_natToBits : ∀ (w n : Nat), n < 2 ^ w →
    bitsToNat (natToBits w n) = n := by
  intro w
  induction w with
  | zero =>
      intro n h
      have : n = 0 := by simpa using Nat.lt_one_iff.1 h
      simp [this, natToBits, bitsToNat, bitsToNatAux]
  | succ w ih =>
      intro n h
      have hlt : n / 2 < 2 ^ w := by
        rw [pow_succ] at h
        omega
      rw [natToBits, bitsToNat_append_bit, ih (n / 2) hlt]
      rcases Nat.mod_two_eq_zero_or_one n with h2 | h2 <;> simp [h2] <;> omega

theorem bitsToNat_lt (l : List Bool) : bitsToNat l < 2 ^ l.length := by
  induction l using List.reverseRecOn with
  | nil => simp [bitsToNat, bitsToNatAux]
  | append_singleton l b ih =>
      rw [bitsToNat_append_bit, List.length_append, List.length_singleton,
        pow_succ]
      rcases b with _ | _ <;> simp <;> omega

/-- Chunk a list into pieces of `k + 1` elements (the last piece may be
shorter); `k = 10` gives the 11-bit groups of BIP39, `k = 7` the 8-bit
bytes. -/
def chunksOf (k : Nat) : List α → List (List α)
  | [] => []
  | a :: rest => (a :: rest).take (k + 1) :: chunksOf k ((a :: rest).drop (k + 1))
termination_by l => l.length
decreasing_by simp; omega

theorem chunksOf_nil (k : Nat) : chunksOf k ([] : List α) = [] := by
  simp [chunksOf]

theorem chunksOf_cons (k : Nat) (a : α) (rest : List α) :
    chunksOf k (a :: rest) =
      (a :: rest).take (k + 1) :: chunksOf k ((a :: rest).drop (k + 1)) := by
  simp [chunksOf]

theorem chunksOf_append (k : Nat) {l₁ : List α} (l₂ : List α)
    (h : l₁.length = k + 1) : chunksOf k (l₁ ++ l₂) = l₁ :: chunksOf k l₂ := by
  obtain ⟨a, t, rfl⟩ : ∃ a t, l₁ = a :: t := by
    cases l₁ with
    | nil => simp at h
    | cons a t => exact ⟨a, t, rfl⟩
  rw [List.cons_append, chunksOf_cons, ← List.cons_append, List.take_left' h,
    List.drop_left' h]

theorem chunksOf_flatten_le (k : Nat) : ∀ (n : Nat) (l : List α), l.length ≤ n →
    (chunksOf k l).flatten = l := by
  intro n
  induction n with
  | zero =>
      intro l h
      have : l = [] := List.length_eq_zero.1 (Nat.le_zero.1 h)
      simp [this, chunksOf_nil]
  | succ n ih =>
      intro l h
      cases l with
      | nil => simp [chunksOf_nil]
      | cons a t =>
          have hble : ((a :: t).drop (k + 1)).length ≤ n := by
            rw [List.length_drop]
            simp only [List.length_cons] at h ⊢
            omega
          rw [chunksOf_cons, List.flatten_cons, ih _ hble]
          exact List.take_append_drop _ _

theorem chunksOf_flatten (k : Nat) (l : List α) : (chunksOf k l).flatten = l :=
  chunksOf_flatten_le k l.length l le_rfl

theorem chunksOf_uniform (k : Nat) : ∀ (m : Nat) (l : List α),
    l.length = (k + 1) * m →
    (chunksOf k l).length = m ∧ ∀ c ∈ chunksOf k l, c.length = k + 1 := by
  intro m
  induction m with
  | zero =>
      intro l h
      have : l = [] := List.length_eq_zero.1 (by simpa using h)
      subst this
      simp [chunksOf_nil]
  | succ m ih =>
      intro l h
      have hge : k + 1 ≤ l.length := by
        rw [h, Nat.mul_succ]
        omega
      cases l with
      | nil => simp at hge
      | cons a t =>
          rw [chunksOf_cons]
          have htake : ((a :: t).take (k + 1)).length = k + 1 := by
            rw [List.length_take]
            omega
          have hdrop : ((a :: t).drop (k + 1)).length = (k + 1) * m := by
            rw [List.length_drop, h, Nat.mul_succ]
            omega
          obtain ⟨ihl, ihc⟩ := ih _ hdrop
          refine ⟨by simp only [List.length_cons, ihl], ?_⟩
          intro c hc
          rcases List.mem_cons.1 hc with rfl | hc
          · exact htake
          · exact ihc c hc

theorem chunksOf_flatten_uniform (k : Nat) : ∀ (ls : List (List α)),
    (∀ c ∈ ls, c.length = k + 1) → chunksOf k ls.flatten = ls := by
  intro ls
  induction ls with
  | nil =>
      intro
      simp [chunksOf_nil]
  | cons c rest ih =>
      intro h
      rw [List.flatten_cons, chunksOf_append k _ (h c (by simp)),
        ih (fun x hx => h x (by simp [hx]))]

/-- Bytes to MSB-first bits, 8 bits per byte. -/
def bytesToBits (bs : List Nat) : List Bool := (bs.map (natToBits 8)).flatten

theorem bytesToBits_length (bs : List Nat) :
    (bytesToBits bs).length = 8 * bs.length := by
  induction bs with
  | nil => rfl
  | cons b rest ih =>
      simp only [bytesToBits, List.map_cons, List.flatten_cons, List.length_append,
        natToBits_length, List.length_cons] at ih ⊢
      omega

theorem getD_mem_of_lt {α : Type} {l : List α} {n : Nat} (h : n < l.length)
    (d : α) : l.getD n d ∈ l := by
  rw [List.getD_eq_getElem?_getD, List.getElem?_eq_getElem h]
  exact List.getElem_mem h

theorem indexOf_getElem_of_nodup {α : Type} [BEq α] [LawfulBEq α] :
    ∀ (l : List α), l.Nodup → ∀ (i : Nat) (h : i < l.length),
      l.indexOf l[i] = i := by
  intro l
  induction l with
  | nil =>
      intro _ i h
      simp at h
  | cons a t ih =>
      intro hnd i h
      obtain ⟨hna, hndt⟩ := List.nodup_cons.1 hnd
      rcases i with _ | i
      · simp [List.indexOf_cons]
      · have hit : i < t.length := by simpa using h
        have hmem : t[i] ∈ t := List.getElem_mem hit
        have hne : (a == t[i]) = false := by
          rw [beq_eq_false_iff_ne]
          intro hEq
          exact hna (hEq ▸ hmem)
        simp only [List.getElem_cons_succ, List.indexOf_cons, hne, cond_false]
        rw [ih hndt i hit]

theorem indexOf_getD_of_nodup {α : Type} [BEq α] [LawfulBEq α] {l : List α}
    (hnd : l.Nodup) {n : Nat} (h : n < l.length) (d : α) :
    l.indexOf (l.getD n d) = n := by
  rw [List.getD_eq_getElem?_getD, List.getElem?_eq_getElem h]
  simpa using indexOf_getElem_of_nodup l hnd n h

/-! ## MnemonicCodec: BIP39 generation and validation

`generateMnemonic` of `src/utils/cryptoUtils.js` maps the word count to an
entropy bit count, draws `bits/8` random bytes, calls the `bip39` library's
`entropyToMnemonic`, and re-validates the result with `validateMnemonic`
(throwing on failure); unsupported word counts throw before any entropy is
drawn.  The `bip39` dependency is embedded per its BIP39 algorithm: the
checksummed bit string `entropy-bits ‖ first ENT/32 bits of SHA256(entropy)`
is cut into 11-bit groups indexing a 2048-word list; validation recomputes
the checksum from the word indices.  SHA-256 itself and the word list are
parameters (`Bip39Env`); a mnemonic is its word sequence (`List (List Char)`),
so the word count is the list length. -/

/-- The `bip39` library environment: the SHA-256 digest function (32 bytes)
and the active word list. -/
structure Bip39Env where
  sha256 : List Nat → List Nat
  sha256_len : ∀ bs, (sha256 bs).length = 32
  wordlist : List (List Char)

/-- `bip39.entropyToMnemonic`: entropy bits plus the first `ENT/32` bits of
`SHA256(entropy)`, in 11-bit groups looked up in the word list. -/
def entropyToMnemonic (env : Bip39Env) (entropy : List Nat) :
    List (List Char) :=
  let entBits := bytesToBits entropy
  let csBits := (bytesToBits (env.sha256 entropy)).take (entropy.length * 8 / 32)
  (chunksOf 10 (entBits ++ csBits)).map
    (fun c => env.wordlist.getD (bitsToNat c) [])

/-- `bip39.validateMnemonic` (via `mnemonicToEntropy`): the word count must be
a multiple of 3, every word must be in the word list, the recovered entropy
must be 16–32 bytes in 4-byte steps, and the checksum bits must equal the
first `ENT/32` bits of `SHA256` of the recovered entropy. -/
def validateMnemonic (env : Bip39Env) (words : List (List Char)) : Bool :=
  if words.length % 3 = 0 then
    if words.all (fun w => decide (w ∈ env.wordlist)) then
      let bits := ((words.map (fun w => env.wordlist.indexOf w)).map
        (natToBits 11)).flatten
      let dividerIndex := bits.length / 33 * 32
      let entBits := bits.take dividerIndex
      let csBits := bits.drop dividerIndex
      let entropyBytes := (chunksOf 7 entBits).map bitsToNat
      if 16 ≤ entropyBytes.length ∧ entropyBytes.length ≤ 32 ∧
          entropyBytes.length % 4 = 0 then
        decide (csBits = (bytesToBits (env.sha256 entropyBytes)).take
          (entropyBytes.length * 8 / 32))
      else false
    else false
  else false

/-- Errors of `generateMnemonic`, one per `throw` site. -/
inductive GenErr where
  | unsupportedWordCount
  | generatedInvalid
deriving DecidableEq, Repr

/-- The `entropyBits` lookup table `{12:128, 15:160, 18:192, 21:224, 24:256}`
of `generateMnemonic`. -/
def entropyBitsFor (w : Nat) : Option Nat :=
  if w = 12 then some 128
  else if w = 15 then some 160
  else if w = 18 then some 192
  else if w = 21 then some 224
  else if w = 24 then some 256
  else none

/-- `generateMnemonic` of `src/utils/cryptoUtils.js`: look up the entropy bit
count (throwing on unsupported word counts), encode the drawn entropy (the
explicit `entropy` argument stands for `randomBytes(bits / 8)`), and
re-validate the resulting mnemonic, throwing if the check fails. -/
def generateMnemonic (env : Bip39Env) (wordCount : Nat) (entropy : List Nat) :
    Except GenErr (List (List Char)) :=
  match entropyBitsFor wordCount with
  | none => .error .unsupportedWordCount
  | some _ =>
      let m := entropyToMnemonic env entropy
      if validateMnemonic env m then .ok m else .error .generatedInvalid

theorem entropyToMnemonic_spec (env : Bip39Env) (entropy : List Nat) (kk : Nat)
    (hwl : env.wordlist.length = 2048) (hnd : env.wordlist.Nodup)
    (hlen : entropy.length = 4 * kk) (hk1 : 4 ≤ kk) (hk2 : kk ≤ 8)
    (hb : ∀ b ∈ entropy, b < 256) :
    (entropyToMnemonic env entropy).length = 3 * kk ∧
    validateMnemonic env (entropyToMnemonic env entropy) = true := by
  have hcs : entropy.length * 8 / 32 = kk := by
    rw [hlen]
    omega
  have hentLen : (bytesToBits entropy).length = 32 * kk := by
    rw [bytesToBits_length, hlen]
    omega
  have hshaLen : (bytesToBits (env.sha256 entropy)).length = 256 := by
    rw [bytesToBits_length, env.sha256_len]
  have hcsLen : ((bytesToBits (env.sha256 entropy)).take
      (entropy.length * 8 / 32)).length = kk := by
    rw [hcs, List.length_take, hshaLen]
    omega
  have hallLen : (bytesToBits entropy ++ (bytesToBits (env.sha256 entropy)).take
      (entropy.length * 8 / 32)).length = 11 * (3 * kk) := by
    rw [List.length_append, hentLen, hcsLen]
    omega
  obtain ⟨hchLen, hchAll⟩ := chunksOf_uniform 10 (3 * kk) _ hallLen
  have hidx : ∀ c ∈ chunksOf 10 (bytesToBits entropy ++
      (bytesToBits (env.sha256 entropy)).take (entropy.length * 8 / 32)),
      bitsToNat c < 2048 := by
    intro c hc
    have h1 := bitsToNat_lt c
    rw [hchAll c hc] at h1
    simpa using h1
  have hwordsEq : entropyToMnemonic env entropy =
      (chunksOf 10 (bytesToBits entropy ++ (bytesToBits (env.sha256 entropy)).take
        (entropy.length * 8 / 32))).map
        (fun c => env.wordlist.getD (bitsToNat c) []) := rfl
  have hlenWords : (entropyToMnemonic env entropy).length = 3 * kk := by
    rw [hwordsEq, List.length_map, hchLen]
  refine ⟨hlenWords, ?_⟩
  have hbits : (((entropyToMnemonic env entropy).map
      (fun w => env.wordlist.indexOf w)).map (natToBits 11)).flatten =
      bytesToBits entropy ++ (bytesToBits (env.sha256 entropy)).take
        (entropy.length * 8 / 32) := by
    rw [hwordsEq, List.map_map, List.map_map]
    have hcongr : ∀ c ∈ chunksOf 10 (bytesToBits entropy ++
        (bytesToBits (env.sha256 entropy)).take (entropy.length * 8 / 32)),
        ((natToBits 11 ∘ fun w => env.wordlist.indexOf w) ∘
          fun c => env.wordlist.getD (bitsToNat c) []) c = id c := by
      intro c hc
      have hlt : bitsToNat c < env.wordlist.length := by
        rw [hwl]
        exact hidx c hc
      simp only [Function.comp_apply, id_eq]
      rw [indexOf_getD_of_nodup hnd hlt]
      calc natToBits 11 (bitsToNat c) = natToBits c.length (bitsToNat c) := by
            rw [hchAll c hc]
        _ = c := natToBits_bitsToNat c
    rw [List.map_congr_left hcongr, List.map_id, chunksOf_flatten]
  simp only [validateMnemonic]
  rw [if_pos (by rw [hlenWords]; exact Nat.mul_mod_right 3 kk)]
  rw [if_pos ?hall]
  case hall =>
    rw [List.all_eq_true]
    intro w hw
    rw [hwordsEq] at hw
    obtain ⟨c, hc, rfl⟩ := List.mem_map.1 hw
    have hlt : bitsToNat c < env.wordlist.length := by
      rw [hwl]
      exact hidx c hc
    exact decide_eq_true (getD_mem_of_lt hlt [])
  rw [hbits]
  have hdiv : (bytesToBits entropy ++ (bytesToBits (env.sha256 entropy)).take
      (entropy.length * 8 / 32)).length / 33 * 32 = 32 * kk := by
    rw [hallLen]
    omega
  rw [hdiv]
  have htakeE : (bytesToBits entropy ++ (bytesToBits (env.sha256 entropy)).take
      (entropy.length * 8 / 32)).take (32 * kk) = bytesToBits entropy :=
    List.take_left' hentLen
  have hdropE : (bytesToBits entropy ++ (bytesToBits (env.sha256 entropy)).take
      (entropy.length * 8 / 32)).drop (32 * kk) =
      (bytesToBits (env.sha256 entropy)).take (entropy.length * 8 / 32) :=
    List.drop_left' hentLen
  rw [htakeE, hdropE]
  have hchunksE : chunksOf 7 (bytesToBits entropy) = entropy.map (natToBits 8) := by
    refine chunksOf_flatten_uniform 7 _ ?_
    intro c hc
    obtain ⟨b, _, rfl⟩ := List.mem_map.1 hc
    exact natToBits_length 8 b
  have heb : (chunksOf 7 (bytesToBits entropy)).map bitsToNat = entropy := by
    rw [hchunksE, List.map_map]
    have hcongr2 : ∀ b ∈ entropy, (bitsToNat ∘ natToBits 8) b = id b := by
      intro b hbm
      simp only [Function.comp_apply, id_eq]
      exact bitsToNat_natToBits 8 b (by simpa using hb b hbm)
    rw [List.map_congr_left hcongr2, List.map_id]
  rw [heb]
  rw [if_pos (by rw [hlen]; omega)]
  rw [hcs]
  simp

/-- C9: for every supported word count `w ∈ {12, 15, 18, 21, 24}` and any
entropy of `bits/8` bytes drawn by `randomBytes`, `generateMnemonic w`
returns a mnemonic of exactly `w` words that passes `validateMnemonic`
(for any SHA-256 function and any 2048-entry duplicate-free word list);
for every other word count it fails with the unsupported-word-count error. -/
theorem c9_generate (env : Bip39Env) (w : Nat) (entropy : List Nat)
    (hwl : env.wordlist.length = 2048) (hnd : env.wordlist.Nodup)
    (hw : w = 12 ∨ w = 15 ∨ w = 18 ∨ w = 21 ∨ w = 24)
    (hlen : entropy.length = (entropyBitsFor w).getD 0 / 8)
    (hb : ∀ b ∈ entropy, b < 256) :
    (∃ m, generateMnemonic env w entropy = .ok m ∧ m.length = w ∧
      validateMnemonic env m = true) ∧
    (∀ w2, w2 ∉ ([12, 15, 18, 21, 24] : List Nat) →
      generateMnemonic env w2 entropy = .error .unsupportedWordCount) := by
  constructor
  · have main : ∀ kk : Nat, 4 ≤ kk → kk ≤ 8 → entropy.length = 4 * kk →
        entropyBitsFor w = some (32 * kk) → w = 3 * kk →
        ∃ m, generateMnemonic env w entropy = .ok m ∧ m.length = w ∧
          validateMnemonic env m = true := by
      intro kk h1 h2 h3 hsome hww
      obtain ⟨hL, hV⟩ := entropyToMnemonic_spec env entropy kk hwl hnd h3 h1 h2 hb
      refine ⟨entropyToMnemonic env entropy, ?_, by rw [hL, hww], hV⟩
      simp only [generateMnemonic, hsome]
      rw [if_pos hV]
    rcases hw with rfl | rfl | rfl | rfl | rfl
    · exact main 4 (by omega) (by omega) (by simpa using hlen) rfl rfl
    · exact main 5 (by omega) (by omega) (by simpa using hlen) rfl rfl
    · exact main 6 (by omega) (by omega) (by simpa using hlen) rfl rfl
    · exact main 7 (by omega) (by omega) (by simpa using hlen) rfl rfl
    · exact main 8 (by omega) (by omega) (by simpa using hlen) rfl rfl
  · intro w2 hw2
    have hnone : entropyBitsFor w2 = none := by
      simp only [entropyBitsFor]
      split_ifs with h1 h2 h3 h4 h5
      · exact absurd (by simp [h1]) hw2
      · exact absurd (by simp [h2]) hw2
      · exact absurd (by simp [h3]) hw2
      · exact absurd (by simp [h4]) hw2
      · exact absurd (by simp [h5]) hw2
      · rfl
    simp [generateMnemonic, hnone]

/-- Concrete BIP39 environment for the witness: an all-zero digest and the
word list whose `n`-th word is the string of `n` letters `a` (2048 distinct
words). -/
def bip39Env0 : Bip39Env where
  sha256 := fun _ => List.replicate 32 0
  sha256_len := fun _ => by simp
  wordlist := (List.range 2048).map (fun n => List.replicate n 'a')

theorem bip39Env0_wordlist_length : bip39Env0.wordlist.length = 2048 := by
  simp [bip39Env0]

set_option maxRecDepth 4000 in
theorem bip39Env0_wordlist_nodup : bip39Env0.wordlist.Nodup := by
  refine List.Nodup.map ?_ (List.nodup_range 2048)
  intro a b h
  simpa using congrArg List.length h

theorem c9_generate_witness :
    (∃ m, generateMnemonic bip39Env0 12 (List.replicate 16 0) = .ok m ∧
      m.length = 12 ∧ validateMnemonic bip39Env0 m = true) ∧
    generateMnemonic bip39Env0 13 (List.replicate 16 0) =
      .error .unsupportedWordCount :=
  ⟨(c9_generate bip39Env0 12 (List.replicate 16 0) bip39Env0_wordlist_length
      bip39Env0_wordlist_nodup (Or.inl rfl) (by simp [entropyBitsFor])
      (by intro b hbm; simp at hbm; omega)).1,
   (c9_generate bip39Env0 12 (List.replicate 16 0) bip39Env0_wordlist_length
      bip39Env0_wordlist_nodup (Or.inl rfl) (by simp [entropyBitsFor])
      (by intro b hbm; simp at hbm; omega)).2 13 (by decide)⟩

end MnemonicPhrase
